import Mathlib

/-!
# Verification of the chatty-documents map-reduce summarization design

The repository's notebooks delegate chunking, mapping and reduction to an
external framework and only supply configuration; the one piece of original
algorithmic code in the sources is `CommaSeparatedListOutputParser.parse`
(notebook `01-conversation-starter.ipynb`), embedded below over `List Char`.
The Chunker / Mapper / Budgeted Grouper / Reducer procedure is modelled from
the specification, since its implementation lives in the external framework
and not in this repository.
-/

namespace ChattyDocs

/-- Modelled from the spec (§7, error taxonomy): the errors of the map-reduce
summarization procedure; the implementation is not in this repository. -/
inductive Err where
  | configError : Err
  | reduceStalledError : Err
  | reduceTimeoutError : Nat → Err
  | incompleteMapError : List Nat → Err
  deriving DecidableEq, Repr

section Grouper

variable {α : Type}

/-- Modelled from the spec (§4.3 Budgeted Grouper): the greedy left-to-right
packing loop, missing from the repository (delegated to the external
framework's `ReduceDocumentsChain`). `cur` is the current group (reversed),
`size` its cumulative estimated size; a summary whose addition would push the
running size past the budget closes the current group and starts a new one. -/
def groupAux (est : α → Nat) (budget : Nat) : List α → List α → Nat → List (List α)
  | [], cur, _ => [cur.reverse]
  | s :: rest, cur, size =>
    if budget < size + est s then
      cur.reverse :: groupAux est budget rest [s] (est s)
    else
      groupAux est budget rest (s :: cur) (size + est s)

/-- Modelled from the spec (§4.3): `group(summaries, token_budget)` with a
pluggable `size_estimator`; greedy packing in input order. -/
def group (est : α → Nat) (budget : Nat) : List α → List (List α)
  | [] => []
  | s :: rest => groupAux est budget rest [s] (est s)

end Grouper

section Reducer

variable {α : Type}

/-- Modelled from the spec (§4.4 Reducer): one reduction round groups the
current summaries and collapses each group into one summary via the
summarization service. -/
def reduceRound (svc : List α → α) (est : α → Nat) (budget : Nat)
    (xs : List α) : List α :=
  (group est budget xs).map svc

/-- Modelled from the spec (§4.4 Reducer): `reduce(summaries, token_budget,
max_rounds)`, missing from the repository.  Rounds repeat until exactly one
summary remains; a round that does not strictly reduce the summary count
raises `reduceStalledError`; exhausting `max_rounds` raises
`reduceTimeoutError` naming the remaining summary count. The first argument
of the recursion is the number of rounds still allowed. -/
def reduce (svc : List α → α) (est : α → Nat) (budget : Nat) :
    Nat → List α → Except Err α
  | _, [x] => .ok x
  | 0, [] => .error (.reduceTimeoutError 0)
  | 0, x :: y :: t => .error (.reduceTimeoutError (x :: y :: t).length)
  | _ + 1, [] => .error .reduceStalledError
  | fuel + 1, x :: y :: t =>
    let next := reduceRound svc est budget (x :: y :: t)
    if next.length < (x :: y :: t).length then
      reduce svc est budget fuel next
    else
      .error .reduceStalledError

end Reducer

section Chunker

/-- Modelled from the spec (§4.1 Chunker): the hard-character-cut loop.  Each
chunk takes `m` characters; the next chunk restarts `step = m - overlap`
characters later, so `overlap` characters are duplicated. The first argument
is recursion fuel, instantiated with the text length by `chunk` (each
iteration consumes `step ≥ 1` characters for valid configurations). -/
def chunkGo (m step : Nat) : Nat → List Char → List (List Char)
  | 0, t => [t]
  | fuel + 1, t =>
    if t.length ≤ m then [t]
    else t.take m :: chunkGo m step fuel (t.drop step)

/-- Modelled from the spec (§4.1 Chunker): `chunk(text, max_size, overlap)`,
missing from the repository (delegated to the external framework's text
splitter).  Fails with `configError` when `max_size ≤ 0` or
`overlap ≥ max_size`, before anything else happens. -/
def chunk (text : List Char) (maxSize : Int) (overlap : Nat) :
    Except Err (List (List Char)) :=
  if maxSize ≤ 0 ∨ (overlap : Int) ≥ maxSize then .error .configError
  else .ok (chunkGo maxSize.toNat (maxSize.toNat - overlap) text.length text)

end Chunker

section Mapper

variable {α β : Type}

/-- Modelled from the spec (§4.2 Mapper): bounded retries for a single chunk.
The service oracle `svc` maps an attempt number and a chunk to an optional
summary; the first successful attempt among `0, …, attempts-1` wins. -/
def tryChunk (svc : Nat → α → Option β) (attempts : Nat) (c : α) : Option β :=
  (List.range attempts).findSome? fun k => svc k c

/-- Modelled from the spec (§4.2 Mapper): the indices of chunks whose bounded
retries all failed. -/
def failedIndices (svc : Nat → α → Option β) (attempts : Nat)
    (chunks : List α) : List Nat :=
  (List.range chunks.length).filter fun i =>
    (((chunks.map (tryChunk svc attempts))[i]?).getD none).isNone

/-- Modelled from the spec (§4.2 Mapper): `map(chunks)`, missing from the
repository.  Every chunk is attempted (a persistent failure does not stop the
siblings); when no chunk failed, one summary per chunk is returned in the
original order; otherwise the run aborts with `incompleteMapError` listing
all failed indices. -/
def mapChunks (svc : Nat → α → Option β) (attempts : Nat) (chunks : List α) :
    Except Err (List β) :=
  let tried := chunks.map (tryChunk svc attempts)
  let failed := failedIndices svc attempts chunks
  if failed = [] then .ok tried.reduceOption
  else .error (.incompleteMapError failed)

end Mapper

section Orchestrator

/-- Modelled from the spec (§4.5 Pipeline Orchestrator): run the Chunker over
every document, concatenating the per-document chunk streams in order; a
configuration error aborts immediately. -/
def chunkAll (maxSize : Int) (overlap : Nat) :
    List (List Char) → Except Err (List (List Char))
  | [] => .ok []
  | d :: ds =>
    match chunk d maxSize overlap with
    | .error e => .error e
    | .ok cs =>
      match chunkAll maxSize overlap ds with
      | .error e => .error e
      | .ok rest => .ok (cs ++ rest)

/-- Modelled from the spec (§4.5): `summarize_documents(documents, chunk_size,
overlap, token_budget, max_rounds)`: Chunker, then Mapper, then Reducer.  The
summarization service is the parameter `svc`, so any outcome that holds for
every `svc` was reached without consulting the service. -/
def summarize_documents (svc : List Char → List Char) (est : List Char → Nat)
    (docs : List (List Char)) (maxSize : Int) (overlap : Nat)
    (budget maxRounds : Nat) : Except Err (List Char) :=
  match chunkAll maxSize overlap docs with
  | .error e => .error e
  | .ok chunks =>
    reduce (fun g => svc g.flatten) est budget maxRounds (chunks.map svc)

end Orchestrator

/-! ## The comma-separated-list output parsing from notebook 01

`CommaSeparatedListOutputParser.parse` is `text.strip().split(", ")` in the
source; strings are embedded as `List Char`. -/

/-- Python's `str.isspace` — the exact set of code points removed by
`str.strip()` (CPython's Unicode whitespace: the ASCII controls 09–0D and
1C–1F, space, NEL 85, NBSP A0, Ogham space mark, the Unicode en/em/thin/…
spaces 2000–200A, line separator 2028, paragraph separator 2029, narrow NBSP
202F, medium mathematical space 205F, and ideographic space 3000). -/
def isPySpace (c : Char) : Bool :=
  c ∈ (['\x09', '\x0a', '\x0b', '\x0c', '\x0d', '\x1c', '\x1d', '\x1e', '\x1f',
        ' ', '\x85', '\xa0', '\u1680', '\u2000', '\u2001', '\u2002', '\u2003',
        '\u2004', '\u2005', '\u2006', '\u2007', '\u2008', '\u2009', '\u200a',
        '\u2028', '\u2029', '\u202f', '\u205f', '\u3000'] : List Char)

/-- Python's `str.strip()`: remove leading and trailing whitespace. -/
def pyStrip (s : List Char) : List Char :=
  ((s.dropWhile isPySpace).reverse.dropWhile isPySpace).reverse

/-- Python's `s.split(", ")`: cut at each non-overlapping occurrence of the
separator `", "`, scanning left to right; `acc` holds the current piece
reversed.  `"".split(", ")` is `[""]`. -/
def splitCS (acc : List Char) : List Char → List (List Char)
  | [] => [acc.reverse]
  | [c] => [(c :: acc).reverse]
  | c1 :: c2 :: rest =>
    if c1 = ',' ∧ c2 = ' ' then acc.reverse :: splitCS [] rest
    else splitCS (c1 :: acc) (c2 :: rest)

/-- `CommaSeparatedListOutputParser.parse` from
`01-conversation-starter.ipynb`: `return text.strip().split(", ")`. -/
def parse (text : List Char) : List (List Char) :=
  splitCS [] (pyStrip text)

/-- Python's `", ".join(xs)` over the embedded strings. -/
def pyJoin : List (List Char) → List Char
  | [] => []
  | [x] => x
  | x :: y :: ys => x ++ ',' :: ' ' :: pyJoin (y :: ys)

/-- `x` contains the substring `", "`. -/
def containsCS : List Char → Bool
  | [] => false
  | [_] => false
  | c1 :: c2 :: rest => (c1 = ',' ∧ c2 = ' ') ∨ containsCS (c2 :: rest)

/-- `s` does not start with a whitespace character. -/
def noLeadWS : List Char → Bool
  | [] => true
  | c :: _ => ! isPySpace c

/-- `s` does not end with a whitespace character. -/
def noTrailWS (s : List Char) : Bool :=
  noLeadWS s.reverse

/-! ## Grouper lemmas and claims -/

section GrouperProofs

variable {α : Type}

lemma groupAux_flatten (est : α → Nat) (budget : Nat) :
    ∀ (rest cur : List α) (size : Nat),
      (groupAux est budget rest cur size).flatten = cur.reverse ++ rest := by
  intro rest
  induction rest with
  | nil => intro cur size; simp [groupAux]
  | cons s rest ih =>
    intro cur size
    by_cases h : budget < size + est s
    · simp [groupAux, h, ih]
    · simp [groupAux, h, ih]

/-- C3: concatenating the groups returned by `group()` in order yields exactly
the input summary list in its original order. -/
theorem group_flatten (est : α → Nat) (budget : Nat) (xs : List α) :
    (group est budget xs).flatten = xs := by
  cases xs with
  | nil => rfl
  | cons s rest => simp [group, groupAux_flatten]

lemma groupAux_budget (est : α → Nat) (budget : Nat) :
    ∀ (rest cur : List α) (size : Nat),
      size = (cur.map est).sum →
      (size ≤ budget ∨ ∃ s, cur = [s] ∧ budget < est s) →
      ∀ g ∈ groupAux est budget rest cur size,
        (g.map est).sum ≤ budget ∨ ∃ s, g = [s] ∧ budget < est s := by
  intro rest
  induction rest with
  | nil =>
    intro cur size hsize hinv g hg
    simp only [groupAux, List.mem_singleton] at hg
    subst hg
    rcases hinv with hle | ⟨s, hcur, hbig⟩
    · left; simpa [hsize, List.sum_reverse] using hle
    · right; exact ⟨s, by simp [hcur], hbig⟩
  | cons s rest ih =>
    intro cur size hsize hinv g hg
    by_cases h : budget < size + est s
    · rw [groupAux, if_pos h] at hg
      rcases List.mem_cons.mp hg with hg | hg
      · subst hg
        rcases hinv with hle | ⟨u, hcur, hbig⟩
        · left; simpa [hsize, List.sum_reverse] using hle
        · right; exact ⟨u, by simp [hcur], hbig⟩
      · refine ih [s] (est s) (by simp) ?_ g hg
        by_cases hs : est s ≤ budget
        · exact Or.inl hs
        · exact Or.inr ⟨s, rfl, by omega⟩
    · rw [groupAux, if_neg h] at hg
      refine ih (s :: cur) (size + est s) (by simp [hsize]; omega) ?_ g hg
      exact Or.inl (by omega)

/-- C2: no group returned by `group()` has cumulative estimated size above the
token budget, except a forced singleton group holding one oversized summary. -/
theorem group_budget_bound (est : α → Nat) (budget : Nat) (xs : List α)
    (g : List α) (hg : g ∈ group est budget xs) :
    (g.map est).sum ≤ budget ∨ ∃ s, g = [s] ∧ budget < est s := by
  cases xs with
  | nil => simp [group] at hg
  | cons s rest =>
    refine groupAux_budget est budget rest [s] (est s) (by simp) ?_ g hg
    by_cases hs : est s ≤ budget
    · exact Or.inl hs
    · exact Or.inr ⟨s, rfl, by omega⟩

/-- Witness for C2 at a concrete input: the oversized summary `12` is forced
into a singleton group under budget `10`. -/
theorem group_budget_bound_witness :
    (([12].map (fun n : Nat => n)).sum ≤ 10) ∨
      ∃ s, [12] = [s] ∧ 10 < (fun n : Nat => n) s :=
  group_budget_bound (fun n : Nat => n) 10 [4, 5, 6, 12] [12] (by decide)

/-- C9: `group()` is deterministic — equal estimators, budgets and input
lists give identical sequences of groups. -/
theorem group_deterministic (est₁ est₂ : α → Nat) (b₁ b₂ : Nat)
    (xs₁ xs₂ : List α) (hest : est₁ = est₂) (hb : b₁ = b₂) (hxs : xs₁ = xs₂) :
    group est₁ b₁ xs₁ = group est₂ b₂ xs₂ := by
  subst hest; subst hb; subst hxs; rfl

/-- Witness for C9 at a concrete input. -/
theorem group_deterministic_witness :
    group (fun n : Nat => n) 10 [4, 5, 6] = group (fun n : Nat => n) 10 [4, 5, 6] :=
  group_deterministic (fun n : Nat => n) (fun n : Nat => n) 10 10
    [4, 5, 6] [4, 5, 6] rfl rfl rfl

lemma groupAux_length_map (est : α → Nat) (budget : Nat) :
    ∀ (rest cur : List α) (size : Nat),
      (groupAux est budget rest cur size).map List.length
        = (groupAux (fun n => n) budget (rest.map est) (cur.map est) size).map
            List.length := by
  intro rest
  induction rest with
  | nil => intro cur size; simp [groupAux]
  | cons s rest ih =>
    intro cur size
    by_cases h : budget < size + est s
    · simp [groupAux, h, ih]
    · simp [groupAux, h, ih]

lemma group_length_map (est : α → Nat) (budget : Nat) (xs : List α) :
    (group est budget xs).map List.length
      = (group (fun n => n) budget (xs.map est)).map List.length := by
  cases xs with
  | nil => rfl
  | cons s rest => simpa [group] using groupAux_length_map est budget rest [s] (est s)

/-- C4 counterexample: at 25 summaries of estimated size 300 and token budget
1000, not every group produced by `group()` holds 3 summaries (the ninth
holds a single one). -/
theorem group_round1_not_nine_triples :
    ¬ ∀ g ∈ group (fun _ : Nat => 300) 1000 (List.replicate 25 (0 : Nat)),
        g.length = 3 := by
  decide

/-- C4 amended: with 25 input summaries each of estimated size 300 and token
budget 1000, `group()` produces 9 groups — the first 8 holding 3 summaries
each and the last holding 1. -/
theorem group_25_of_300_sizes (xs : List α) (est : α → Nat)
    (hlen : xs.length = 25) (hsz : ∀ x ∈ xs, est x = 300) :
    (group est 1000 xs).map List.length = [3, 3, 3, 3, 3, 3, 3, 3, 1] := by
  rw [group_length_map]
  have hmap : xs.map est = List.replicate 25 300 := by
    have : ∀ b ∈ xs.map est, b = 300 := by
      intro b hb
      rcases List.mem_map.mp hb with ⟨x, hx, rfl⟩
      exact hsz x hx
    simpa [hlen] using List.eq_replicate_of_mem this
  rw [hmap]
  decide

/-- Witness for C4's amended claim at a concrete input. -/
theorem group_25_of_300_sizes_witness :
    (group (fun _ : Nat => 300) 1000 (List.replicate 25 (0 : Nat))).map
        List.length = [3, 3, 3, 3, 3, 3, 3, 3, 1] :=
  group_25_of_300_sizes (List.replicate 25 (0 : Nat)) (fun _ => 300)
    (by decide) (by intro x _; rfl)

end GrouperProofs

/-! ## Reducer lemmas and claims -/

section ReducerProofs

variable {α : Type}

lemma groupAux_length_all_big (est : α → Nat) (budget : Nat) :
    ∀ (rest : List α) (cur : List α) (size : Nat),
      (∀ x ∈ rest, budget < est x) → budget < size →
      (groupAux est budget rest cur size).length = rest.length + 1 := by
  intro rest
  induction rest with
  | nil => intro cur size _ _; simp [groupAux]
  | cons s rest ih =>
    intro cur size hall hsize
    have hcond : budget < size + est s := by omega
    rw [groupAux, if_pos hcond]
    have hs : budget < est s := hall s (by simp)
    have := ih [s] (est s) (fun x hx => hall x (by simp [hx])) hs
    simp [this]

lemma group_length_all_big (est : α → Nat) (budget : Nat) (xs : List α)
    (h : ∀ x ∈ xs, budget < est x) :
    (group est budget xs).length = xs.length := by
  cases xs with
  | nil => rfl
  | cons s rest =>
    have hs : budget < est s := h s (by simp)
    have := groupAux_length_all_big est budget rest [s] (est s)
      (fun x hx => h x (by simp [hx])) hs
    simpa [group] using this

/-- C1: `reduce()` always terminates with one of the three contracted
outcomes — one summary, `reduceStalledError`, or `reduceTimeoutError` — for
every summarization service; and when at least one round is allowed, at least
two summaries remain, and the budget is below every summary's estimated size,
the outcome is `reduceStalledError` (never an unbounded loop). -/
theorem reduce_terminates (svc : List α → α) (est : α → Nat)
    (budget maxRounds : Nat) (xs : List α) :
    ((∃ s, reduce svc est budget maxRounds xs = .ok s) ∨
      reduce svc est budget maxRounds xs = .error .reduceStalledError ∨
      ∃ n, reduce svc est budget maxRounds xs = .error (.reduceTimeoutError n)) ∧
    (2 ≤ xs.length → 1 ≤ maxRounds → (∀ x ∈ xs, budget < est x) →
      reduce svc est budget maxRounds xs = .error .reduceStalledError) := by
  constructor
  · induction maxRounds generalizing xs with
    | zero =>
      match xs with
      | [] => exact Or.inr (Or.inr ⟨0, rfl⟩)
      | [x] => exact Or.inl ⟨x, rfl⟩
      | x :: y :: t => exact Or.inr (Or.inr ⟨(x :: y :: t).length, rfl⟩)
    | succ fuel ih =>
      match xs with
      | [] => exact Or.inr (Or.inl rfl)
      | [x] => exact Or.inl ⟨x, rfl⟩
      | x :: y :: t =>
        by_cases h : (reduceRound svc est budget (x :: y :: t)).length
            < (x :: y :: t).length
        · have hred : reduce svc est budget (fuel + 1) (x :: y :: t)
              = reduce svc est budget fuel
                  (reduceRound svc est budget (x :: y :: t)) := by
            rw [reduce]; simp only [if_pos h]
          rw [hred]; exact ih _
        · have hred : reduce svc est budget (fuel + 1) (x :: y :: t)
              = .error .reduceStalledError := by
            rw [reduce]; simp only [if_neg h]
          rw [hred]; exact Or.inr (Or.inl rfl)
  · intro hlen hrounds hbig
    match xs, hlen, maxRounds, hrounds with
    | x :: y :: t, _, fuel + 1, _ =>
      have hlen' : (reduceRound svc est budget (x :: y :: t)).length
          = (x :: y :: t).length := by
        simp [reduceRound, group_length_all_big est budget _ hbig]
      have hnotlt : ¬ (reduceRound svc est budget (x :: y :: t)).length
          < (x :: y :: t).length := by omega
      rw [reduce]; simp only [if_neg hnotlt]

/-- Witness for C1 at a concrete input: a budget below every summary's size
stalls the reduction instead of looping. -/
theorem reduce_terminates_witness :
    reduce (fun _ => (0 : Nat)) (fun _ => 50) 10 5 [1, 2, 3]
      = .error .reduceStalledError :=
  (reduce_terminates (fun _ => (0 : Nat)) (fun _ => 50) 10 5 [1, 2, 3]).2
    (by decide) (by decide) (by decide)

end ReducerProofs

/-! ## Chunker lemmas and claims -/

section ChunkerProofs

lemma chunkGo_stop (m step fuel : Nat) (t : List Char) (h : t.length ≤ m) :
    chunkGo m step fuel t = [t] := by
  cases fuel with
  | zero => rfl
  | succ fuel => rw [chunkGo, if_pos h]

lemma chunkGo_succ_of_lt (m step fuel : Nat) (t : List Char)
    (h : m < t.length) :
    chunkGo m step (fuel + 1) t = t.take m :: chunkGo m step fuel (t.drop step) := by
  rw [chunkGo, if_neg (by omega)]

/-- C5: any text strictly shorter than `max_size` (for a valid configuration
`max_size > 0`, `overlap < max_size`) is returned as exactly one chunk whose
text equals the input text. -/
theorem chunk_short_singleton (text : List Char) (maxSize : Int) (overlap : Nat)
    (hpos : 0 < maxSize) (hov : (overlap : Int) < maxSize)
    (hshort : (text.length : Int) < maxSize) :
    chunk text maxSize overlap = .ok [text] := by
  have hguard : ¬ (maxSize ≤ 0 ∨ (overlap : Int) ≥ maxSize) := by
    push_neg; exact ⟨by omega, by omega⟩
  rw [chunk, if_neg hguard]
  have hlen : text.length ≤ maxSize.toNat := by omega
  rw [chunkGo_stop _ _ _ _ hlen]

/-- Witness for C5 at a concrete input. -/
theorem chunk_short_singleton_witness :
    chunk ['h', 'i'] 10 3 = .ok [['h', 'i']] :=
  chunk_short_singleton ['h', 'i'] 10 3 (by decide) (by decide) (by decide)

/-- C6: `chunk_size = 500`, `overlap = 0` on any 1200-character text yields
exactly 3 chunks of lengths 500, 500 and 200. -/
theorem chunk_1200_500_0 (text : List Char) (h : text.length = 1200) :
    (chunk text 500 0).map (List.map List.length) = .ok [500, 500, 200] := by
  have hguard : ¬ ((500 : Int) ≤ 0 ∨ ((0 : Nat) : Int) ≥ 500) := by decide
  rw [chunk, if_neg hguard]
  have hm : (500 : Int).toNat = 500 := by decide
  rw [hm]
  rw [h]
  rw [show (1200 : Nat) = 1199 + 1 from rfl,
    chunkGo_succ_of_lt _ _ _ _ (by omega)]
  rw [show (1199 : Nat) = 1198 + 1 from rfl,
    chunkGo_succ_of_lt _ _ _ _ (by simp [h])]
  rw [chunkGo_stop _ _ _ _ (by simp [h])]
  simp only [Except.map]
  simp [List.length_take, List.length_drop, h]

/-- Witness for C6 at a concrete 1200-character text. -/
theorem chunk_1200_500_0_witness :
    (chunk (List.replicate 1200 'a') 500 0).map (List.map List.length)
      = .ok [500, 500, 200] :=
  chunk_1200_500_0 (List.replicate 1200 'a') (by rw [List.length_replicate])

/-- C7: invalid parameters (`max_size ≤ 0` or `overlap ≥ max_size`) make
`chunk()` fail with `configError`; and the whole pipeline then fails with
`configError` for every summarization service, i.e. before any service call
could influence the outcome. -/
theorem chunk_invalid_config (text : List Char) (maxSize : Int) (overlap : Nat)
    (svc : List Char → List Char) (est : List Char → Nat)
    (docs : List (List Char)) (budget maxRounds : Nat)
    (hbad : maxSize ≤ 0 ∨ (overlap : Int) ≥ maxSize) :
    chunk text maxSize overlap = .error .configError ∧
    (docs ≠ [] →
      summarize_documents svc est docs maxSize overlap budget maxRounds
        = .error .configError) := by
  have hch : ∀ d : List Char, chunk d maxSize overlap = .error .configError := by
    intro d; rw [chunk, if_pos hbad]
  refine ⟨hch text, ?_⟩
  intro hdocs
  match docs, hdocs with
  | d :: ds, _ =>
    rw [summarize_documents, chunkAll, hch d]

/-- Witness for C7 at a concrete invalid configuration (`overlap = max_size`). -/
theorem chunk_invalid_config_witness :
    chunk ['a'] 4 4 = .error .configError ∧
    (([['b']] : List (List Char)) ≠ [] →
      summarize_documents id (fun t => t.length) [['b']] 4 4 100 3
        = .error .configError) :=
  chunk_invalid_config ['a'] 4 4 id (fun t => t.length) [['b']] 100 3 (by decide)

end ChunkerProofs

/-! ## Mapper lemmas and claims -/

section MapperProofs

variable {α β : Type}

lemma reduceOption_map_some (l : List (Option β)) (h : ∀ x ∈ l, x.isSome) :
    l.reduceOption.map some = l := by
  induction l with
  | nil => rfl
  | cons a t ih =>
    match a, h a (by simp) with
    | some b, _ =>
      rw [List.reduceOption_cons_of_some]
      simp only [List.map_cons]
      rw [ih (fun x hx => h x (by simp [hx]))]

/-- C8: `map(chunks)` either returns one summary per chunk, in chunk order
(`ss.map some` equals the per-chunk retry outcomes, so `ss` has one entry
per chunk, each the summary of the chunk at the same index), or — when at
least one chunk persistently failed within the bounded retries — fails with
`incompleteMapError` listing exactly the indices of all failed chunks. -/
theorem mapChunks_spec (svc : Nat → α → Option β) (attempts : Nat)
    (chunks : List α) :
    (failedIndices svc attempts chunks = [] →
      ∃ ss, mapChunks svc attempts chunks = .ok ss ∧
        ss.map some = chunks.map (tryChunk svc attempts)) ∧
    (failedIndices svc attempts chunks ≠ [] →
      mapChunks svc attempts chunks
        = .error (.incompleteMapError (failedIndices svc attempts chunks))) := by
  constructor
  · intro hok
    refine ⟨(chunks.map (tryChunk svc attempts)).reduceOption, ?_, ?_⟩
    · rw [mapChunks]
      simp only [if_pos hok]
    · refine reduceOption_map_some _ ?_
      intro x hx
      obtain ⟨i, hi⟩ := List.getElem?_of_mem hx
      have hilt : i < chunks.length := by
        have := List.getElem?_eq_some.mp hi
        simpa using this.1
      have hmem : i ∈ List.range chunks.length := List.mem_range.mpr hilt
      have hnone := (List.filter_eq_nil_iff.mp hok) i hmem
      rw [hi] at hnone
      cases x with
      | none => simp at hnone
      | some b => rfl
  · intro hbad
    rw [mapChunks]
    simp only [if_neg hbad]

/-- Witness for C8 at a concrete input: chunk 1 (`'x'`) persistently fails,
its sibling chunk 0 succeeds, and the run aborts naming exactly index 1. -/
theorem mapChunks_spec_witness :
    mapChunks (fun _ c => if c = 'x' then none else some c) 2 ['a', 'x']
      = .error (.incompleteMapError
          (failedIndices (fun _ c => if c = 'x' then none else some c) 2
            ['a', 'x'])) :=
  (mapChunks_spec (fun _ c => if c = 'x' then none else some c) 2 ['a', 'x']).2
    (by decide)

end MapperProofs

/-! ## Parsing lemmas and claims -/

section ParseProofs

theorem splitCS_ne_nil : ∀ (s acc : List Char), splitCS acc s ≠ []
  | [], acc => by simp [splitCS]
  | [c], acc => by simp [splitCS]
  | c1 :: c2 :: rest, acc => by
    by_cases h : c1 = ',' ∧ c2 = ' '
    · simp [splitCS, h]
    · simp only [splitCS]
      rw [if_neg h]
      exact splitCS_ne_nil (c2 :: rest) (c1 :: acc)

lemma containsCS_cons_cons (c1 c2 : Char) (rest : List Char)
    (h : containsCS (c1 :: c2 :: rest) = false) :
    ¬ (c1 = ',' ∧ c2 = ' ') ∧ containsCS (c2 :: rest) = false := by
  simp only [containsCS, Bool.or_eq_false_iff, decide_eq_false_iff_not] at h
  refine ⟨fun hp => h (Or.inl hp), ?_⟩
  cases hb : containsCS (c2 :: rest) with
  | false => rfl
  | true => exact absurd (Or.inr hb) h

theorem splitCS_no_sep : ∀ (x acc : List Char), containsCS x = false →
    splitCS acc x = [acc.reverse ++ x]
  | [], acc, _ => by simp [splitCS]
  | [c], acc, _ => by simp [splitCS]
  | c1 :: c2 :: rest, acc, h => by
    obtain ⟨h1, h2⟩ := containsCS_cons_cons c1 c2 rest h
    simp only [splitCS]
    rw [if_neg h1, splitCS_no_sep (c2 :: rest) (c1 :: acc) h2]
    simp

theorem splitCS_sep : ∀ (x acc rest : List Char), containsCS x = false →
    splitCS acc (x ++ ',' :: ' ' :: rest) = (acc.reverse ++ x) :: splitCS [] rest
  | [], acc, rest, _ => by simp [splitCS]
  | [c], acc, rest, _ => by
    simp [splitCS]
  | c1 :: c2 :: x', acc, rest, h => by
    obtain ⟨h1, h2⟩ := containsCS_cons_cons c1 c2 x' h
    have hrec := splitCS_sep (c2 :: x') (c1 :: acc) rest h2
    rw [List.cons_append] at hrec
    simp only [List.cons_append, splitCS, List.append_eq]
    rw [if_neg h1, hrec]
    simp

theorem splitCS_pyJoin : ∀ (xs : List (List Char)), xs ≠ [] →
    (∀ x ∈ xs, containsCS x = false) → splitCS [] (pyJoin xs) = xs
  | [], hne, _ => absurd rfl hne
  | [x], _, h => by
    rw [pyJoin, splitCS_no_sep x [] (h x (by simp))]
    simp
  | x :: y :: ys, _, h => by
    rw [pyJoin, splitCS_sep x [] (pyJoin (y :: ys)) (h x (by simp)),
      splitCS_pyJoin (y :: ys) (by simp) (fun z hz => h z (by simp [hz]))]
    simp

lemma dropWhile_eq_self_of_noLead (s : List Char) (h : noLeadWS s = true) :
    s.dropWhile isPySpace = s := by
  cases s with
  | nil => rfl
  | cons c t =>
    have hc : isPySpace c = false := by simpa [noLeadWS] using h
    simp [List.dropWhile_cons, hc]

lemma pyStrip_eq_self (s : List Char) (h1 : noLeadWS s = true)
    (h2 : noTrailWS s = true) : pyStrip s = s := by
  rw [pyStrip, dropWhile_eq_self_of_noLead s h1,
    dropWhile_eq_self_of_noLead s.reverse (by simpa [noTrailWS] using h2),
    List.reverse_reverse]

lemma noLeadWS_pyJoin : ∀ (xs : List (List Char)), xs ≠ [] →
    noLeadWS (xs.head?.getD []) = true → noLeadWS (pyJoin xs) = true
  | [], hne, _ => absurd rfl hne
  | [x], _, hh => by simpa [pyJoin] using hh
  | x :: y :: ys, _, hh => by
    cases x with
    | nil =>
      simp only [pyJoin, List.nil_append, noLeadWS]
      decide
    | cons c x' =>
      rw [pyJoin]
      simpa [noLeadWS] using hh

lemma pyJoin_ne_nil_and_noTrail : ∀ (xs : List (List Char)), xs ≠ [] →
    xs.getLast?.getD [] ≠ [] → noTrailWS (xs.getLast?.getD []) = true →
    pyJoin xs ≠ [] ∧ noTrailWS (pyJoin xs) = true
  | [], hne, _, _ => absurd rfl hne
  | [x], _, hl, ht => by
    constructor
    · simpa [pyJoin] using hl
    · simpa [pyJoin] using ht
  | x :: y :: ys, _, hl, ht => by
    have hl' : (y :: ys).getLast?.getD [] ≠ [] := by
      rwa [List.getLast?_cons_cons] at hl
    have ht' : noTrailWS ((y :: ys).getLast?.getD []) = true := by
      rwa [List.getLast?_cons_cons] at ht
    obtain ⟨hJne, hJ⟩ := pyJoin_ne_nil_and_noTrail (y :: ys) (by simp) hl' ht'
    constructor
    · rw [pyJoin]; simp
    · rw [noTrailWS, pyJoin]
      cases hrev : (pyJoin (y :: ys)).reverse with
      | nil => exact absurd (by simpa using hrev) hJne
      | cons c t =>
        have hJc : noLeadWS (c :: t) = true := by
          rw [noTrailWS, hrev] at hJ
          exact hJ
        have : (x ++ ',' :: ' ' :: pyJoin (y :: ys)).reverse
            = c :: (t ++ [' ', ','] ++ x.reverse) := by
          simp [List.reverse_append, hrev]
        rw [this]
        simpa [noLeadWS] using hJc

/-- C10 counterexample: `xs = ["a", ""]` is non-empty, no element contains
`", "`, the first element has no leading whitespace and the last has no
trailing whitespace, yet `parse(", ".join(xs))` is `["a,"]`, not `xs` — the
trailing separator space is removed by `strip()` before splitting. -/
theorem parse_join_cex :
    ([['a'], ([] : List Char)] ≠ []) ∧
    (∀ x ∈ [['a'], ([] : List Char)], containsCS x = false) ∧
    noLeadWS (([['a'], ([] : List Char)]).head?.getD []) = true ∧
    noTrailWS (([['a'], ([] : List Char)]).getLast?.getD []) = true ∧
    parse (pyJoin [['a'], ([] : List Char)]) ≠ [['a'], ([] : List Char)] := by
  decide

/-- C10 amended: for every non-empty list of strings `xs` in which no element
contains `", "`, the first element has no leading whitespace, and the last
element is non-empty with no trailing whitespace,
`parse(", ".join(xs)) = xs`; moreover `parse("") = [""]` and `parse` never
returns an empty list. -/
theorem parse_join_amended (xs : List (List Char)) (hne : xs ≠ [])
    (hcs : ∀ x ∈ xs, containsCS x = false)
    (hhead : noLeadWS (xs.head?.getD []) = true)
    (hlast : xs.getLast?.getD [] ≠ [])
    (htrail : noTrailWS (xs.getLast?.getD []) = true) :
    parse (pyJoin xs) = xs ∧ parse [] = [[]] ∧ ∀ t : List Char, parse t ≠ [] := by
  refine ⟨?_, rfl, ?_⟩
  · have h1 := noLeadWS_pyJoin xs hne hhead
    have h2 := pyJoin_ne_nil_and_noTrail xs hne hlast htrail
    rw [parse, pyStrip_eq_self _ h1 h2.2, splitCS_pyJoin xs hne hcs]
  · intro t
    rw [parse]
    exact splitCS_ne_nil _ _

/-- Witness for C10's amended claim at the notebook's own example output
`"One, two"`. -/
theorem parse_join_amended_witness :
    parse (pyJoin [['O', 'n', 'e'], ['t', 'w', 'o']])
        = [['O', 'n', 'e'], ['t', 'w', 'o']] ∧
    parse [] = [[]] ∧ ∀ t : List Char, parse t ≠ [] :=
  parse_join_amended [['O', 'n', 'e'], ['t', 'w', 'o']] (by decide) (by decide)
    (by decide) (by decide) (by decide)

end ParseProofs

end ChattyDocs
